import Mathlib

/-!
Verification development for the BYONDDiffBots repository (icondiffbot2 and
mapdiffbot2). The Rust sources are shallowly embedded: pure computations become
Lean functions, fallible computations return an explicit result type, panics
(`unreachable!`, `unwrap` on `None`, out-of-range `drain`) are a distinct
result constructor, and external collaborators (the dmm_tools codec and
rasterizer, the network, the filesystem, git object storage) are supplied as
oracle functions or modelled as explicit state.
-/

namespace BYOND

/-- Result of running a piece of Rust code: a success value, an `Err` carried by
`anyhow`/`eyre` (propagated by the `?` operator), or a panic
(`unreachable!`, `unwrap`, out-of-bounds `drain`), which aborts the job. -/
inductive JobResult (α : Type) where
| ok : α → JobResult α
| err : String → JobResult α
| panicked : String → JobResult α
deriving DecidableEq

namespace JobResult

def bind : JobResult α → (α → JobResult β) → JobResult β
| .ok a, f => f a
| .err e, _ => .err e
| .panicked m, _ => .panicked m

instance : Monad JobResult where
  pure := .ok
  bind := bind

/-- Whether the computation succeeded. -/
def isOk : JobResult α → Bool
| .ok _ => true
| _ => false

@[simp] theorem bind_ok (a : α) (f : α → JobResult β) : bind (.ok a) f = f a := rfl

@[simp] theorem bind_err (e : String) (f : α → JobResult β) :
    bind (.err e) f = .err e := rfl

@[simp] theorem bind_panicked (m : String) (f : α → JobResult β) :
    bind (.panicked m) f = .panicked m := rfl

@[simp] theorem isOk_ok (a : α) : isOk (.ok a) = true := rfl

@[simp] theorem isOk_err (e : String) : isOk (.err e : JobResult α) = false := rfl

@[simp] theorem isOk_panicked (m : String) : isOk (.panicked m : JobResult α) = false := rfl

end JobResult

namespace Icondiffbot2

/-- File change kinds, from diffbot_lib's ModifiedFileStatus as matched in
crates/icondiffbot2/src/job_processor.rs. -/
inductive ModifiedFileStatus where
| Added
| Removed
| Modified
| Renamed
| Copied
| Changed
| Unchanged
deriving DecidableEq

/-- status_to_sha (crates/icondiffbot2/src/job_processor.rs, lines 31-41):
maps a file status to the pair (base sha, head sha) used to download the two
revisions of the file. -/
def status_to_sha (baseSha headSha : String) :
    ModifiedFileStatus → Option String × Option String
| .Added => (none, some headSha)
| .Removed => (some baseSha, none)
| .Modified => (some baseSha, some headSha)
| .Renamed => (none, none)
| .Copied => (none, none)
| .Changed => (none, none)
| .Unchanged => (none, none)

/-- One sprite state of a dmi icon file. The structural metadata carried by
dmm_tools' State (frames, directions, delays, ...) is abstracted to a Nat
fingerprint `meta`; equality of `meta` models the PartialEq comparison
`before_state != after_state` performed by the diff engine. The dmm_tools
codec itself is an external collaborator, out of scope per the spec. -/
structure IconState where
  name : String
  meta : Nat
deriving DecidableEq

/-- A decoded dmi icon file: its ordered list of states. -/
structure IconFile where
  states : List IconState
deriving DecidableEq

/-- First state with the given name, modelling
metadata.get_icon_state(name) of dmm_tools. -/
def findState : List IconState → String → Option IconState
| [], _ => none
| st :: rest, n => if st.name = n then some st else findState rest n

def get_icon_state (ic : IconFile) (n : String) : Option IconState :=
  findState ic.states n

/-- The set of state names of an icon, modelling
icon.metadata.state_names.keys() (a HashMap keyed by name, hence each
distinct name once). -/
def state_names (ic : IconFile) : List String :=
  (ic.states.map IconState.name).dedup

/-- Names in the symmetric difference of the two state-name sets, base-side
names first. The Rust iterates a HashSet symmetric_difference whose order is
unspecified; the model fixes one order, and every verified property about it
is order-independent (set membership). -/
def symmNames (before after : IconFile) : List String :=
  (state_names before).filter (fun n => ¬ n ∈ state_names after)
    ++ (state_names after).filter (fun n => ¬ n ∈ state_names before)

/-- Names in the intersection of the two state-name sets (same ordering
caveat as `symmNames`). -/
def interNames (before after : IconFile) : List String :=
  (state_names before).filter (fun n => n ∈ state_names after)

/-- Classification attached to one emitted diff table line. -/
inductive ChangeText where
| Created
| Deleted
| Modified
deriving DecidableEq

/-- One table line pushed by the diff engine for a modified file, before
template formatting: the identity (state name) it was produced for, the
display name placed in the line, the old and new image links, and the
classification. -/
structure DiffEntry where
  key : String
  state_name : String
  old : String
  new : String
  change : ChangeText
deriving DecidableEq

/-- Loop over the symmetric difference of state names
(crates/icondiffbot2/src/job_processor.rs, lines 254-294): a base-only name is
rendered from the base revision and reported Deleted, a head-only name from the
head revision and reported Created. `rsB`/`rsA` are the render_state calls
(external rasterizer plus filesystem), returning (display name, hosted url);
their failure propagates via the `?` operator. -/
def symmLoop (bnames : List String)
    (rsB rsA : String → JobResult (String × String)) :
    List String → JobResult (List DiffEntry)
| [] => .ok []
| n :: rest =>
  if n ∈ bnames then
    (rsB n).bind fun p =>
      (symmLoop bnames rsB rsA rest).bind fun es =>
        .ok (⟨n, p.1, p.2, "", .Deleted⟩ :: es)
  else
    (rsA n).bind fun p =>
      (symmLoop bnames rsB rsA rest).bind fun es =>
        .ok (⟨n, p.1, "", p.2, .Created⟩ :: es)

/-- Loop over the intersection of state names
(crates/icondiffbot2/src/job_processor.rs, lines 296-343). Structural metadata
is compared first; only on metadata equality are both states rendered to
pixel frames (`imB`/`imA`, modelling render_to_images, whose failure
propagates via `?`) and the frames compared. An entry is pushed only when a
difference is found. Returns the pushed entries together with the list of
candidate names that were evaluated. The source unwraps get_icon_state for
names drawn from the key sets; a missing name would be a panic. -/
def interLoop (before after : IconFile)
    (rsB rsA : String → JobResult (String × String))
    (imB imA : String → JobResult Nat) :
    List String → JobResult (List DiffEntry × List String)
| [] => .ok ([], [])
| n :: rest =>
  match get_icon_state before n, get_icon_state after n with
  | some bs, some hs =>
    (if bs ≠ hs then .ok true
     else
       (imB n).bind fun ib =>
         (imA n).bind fun ia =>
           .ok (decide (ib ≠ ia))).bind fun difference =>
    if difference then
      (rsB n).bind fun pb =>
        (rsA n).bind fun pa =>
          (interLoop before after rsB rsA imB imA rest).bind fun rec =>
            .ok (⟨n, n, pb.2, pa.2, .Modified⟩ :: rec.1, n :: rec.2)
    else
      (interLoop before after rsB rsA imB imA rest).bind fun rec =>
        .ok (rec.1, n :: rec.2)
  | _, _ => .panicked "get_icon_state unwrap failed for an intersection state"

/-- The (Some before, Some after) branch of render
(crates/icondiffbot2/src/job_processor.rs, lines 240-346): symmetric-difference
names first, then intersection names. Returns the emitted entries and the
candidate names evaluated for the Modified classification. -/
def modifiedRender (before after : IconFile)
    (rsB rsA : String → JobResult (String × String))
    (imB imA : String → JobResult Nat) :
    JobResult (List DiffEntry × List String) :=
  (symmLoop (state_names before) rsB rsA (symmNames before after)).bind fun se =>
    (interLoop before after rsB rsA imB imA (interNames before after)).bind fun rec =>
      .ok (se ++ rec.1, rec.2)

/-- Modelled from the spec: templates/diff_line.txt is not under src. One
markdown table row holding the state name, the old and new image links, and
the change text. -/
def diff_line (state_name old new change_text : String) : String :=
  "| " ++ state_name ++ " | " ++ old ++ " | " ++ new ++ " | " ++ change_text ++ " |"

def changeTextStr : ChangeText → String
| .Created => "Created"
| .Deleted => "Deleted"
| .Modified => "Modified"

def entryLine (e : DiffEntry) : String :=
  diff_line e.state_name e.old e.new (changeTextStr e.change)

/-- The sentinel display name substituted for an empty state name
("Mark default states" in the source); the braces of the literal are written
escaped. -/
def defaultName (n : String) : String :=
  if n = "" then "\x7b\x7bDEFAULT\x7d\x7d" else n

/-- full_render (crates/icondiffbot2/src/job_processor.rs, lines 391-415):
render every state of the icon once, in metadata order; any render_state
failure propagates. -/
def fullRenderGo (rs : String → JobResult (String × String)) :
    List IconState → JobResult (List (String × String))
| [] => .ok []
| st :: rest =>
  (rs st.name).bind fun p =>
    (fullRenderGo rs rest).bind fun ps =>
      .ok (p :: ps)

def full_render (ic : IconFile) (rs : String → JobResult (String × String)) :
    JobResult (List (String × String)) :=
  fullRenderGo rs ic.states

/-- render (crates/icondiffbot2/src/job_processor.rs, lines 176-348): dispatch
on which revisions of the file exist. (None, None) is an explicit
`unreachable!` panic in the source. Added and Removed files render every
state; Modified files run the classification of `modifiedRender`. Returns the
change-type tag and the formatted table lines for the file. -/
def renderFile (before after : Option IconFile)
    (rsB rsA : String → JobResult (String × String))
    (imB imA : String → JobResult Nat) :
    JobResult (String × List String) :=
  match before, after with
  | none, none => .panicked "Diffing (None, None) makes no sense"
  | none, some hd =>
    (full_render hd rsA).bind fun urls =>
      .ok ("ADDED", urls.map fun p => diff_line (defaultName p.1) "" p.2 "Created")
  | some bs, none =>
    (full_render bs rsB).bind fun urls =>
      .ok ("DELETED", urls.map fun p => diff_line (defaultName p.1) p.2 "" "Deleted")
  | some bs, some hd =>
    (modifiedRender bs hd rsB rsA imB imA).bind fun rec =>
      .ok ("MODIFIED", rec.1.map entryLine)

/-- Title given to every emitted report chunk
(crates/icondiffbot2/src/job_processor.rs, lines 150-165). -/
def outputTitle : String := "Icon difference rendering"

/-- Fixed summary of every emitted report chunk. -/
def outputSummary : String :=
  "*This is still a beta. Please file any issues [here](https://github.com/spacestation13/BYONDDiffBots/).*\n\nIcons with diff:"

/-- One report payload handed to the reporting collaborator. -/
structure Output where
  title : String
  summary : String
  text : String
deriving DecidableEq

/-- The result shape of handle_changed_files: one primary output, possibly
with continuation outputs. -/
inductive CheckOutputs where
| One : Output → CheckOutputs
| Many : Output → List Output → CheckOutputs
deriving DecidableEq

/-- Sub-section title for a detail block: file name plus the disambiguating
counter. -/
def detailName (file_name : String) (entry : Nat) : String :=
  file_name ++ " (" ++ toString entry ++ ")"

/-- Detail-block accumulation for one file
(crates/icondiffbot2/src/job_processor.rs, lines 108-133). Before appending a
state line the length of the running table plus the line is checked against
the 55,000 ceiling; on overflow the running table is flushed as a titled
sub-section and the line starts a fresh table. The appended newline is not
counted by the check. A trailing non-empty table is flushed at end of file.
The per-file counter starts at 0 because the upstream map is keyed by file
name. -/
def detailsGo (file_name change_type : String) (entry : Nat) (current : String) :
    List String → List (String × String × String)
| [] =>
  if current = "" then [] else [(detailName file_name entry, change_type, current)]
| s :: rest =>
  if current.length + s.length > 55000 then
    (detailName file_name entry, change_type, current) ::
      detailsGo file_name change_type (entry + 1) (s ++ "\n") rest
  else
    detailsGo file_name change_type entry (current ++ s ++ "\n") rest

/-- All detail blocks of a run. The source iterates a HashMap whose order is
unspecified; the model takes the file sequence as presented. -/
def buildDetails : List (String × String × List String) → List (String × String × String)
| [] => []
| (f, t, sts) :: rest => detailsGo f t 0 "" sts ++ buildDetails rest

/-- Modelled from the spec: templates/diff_details.txt is not under src. A
titled, collapsible sub-section wrapping one detail table. -/
def diff_details (filename typ table : String) : String :=
  "<details><summary>" ++ filename ++ " " ++ typ ++ "</summary>\n\n" ++ table
    ++ "\n</details>\n"

/-- Chunk accumulation (crates/icondiffbot2/src/job_processor.rs,
lines 135-166). Before appending the next rendered detail block the length of
the running report body plus the block is checked against the 60,000 ceiling;
on overflow the running body is flushed as a chunk (possibly empty, when the
very first block is oversized) and the block starts a fresh body. A trailing
non-empty body is flushed at end of input. -/
def chunksGo (current : String) : List (String × String × String) → List Output
| [] => if current = "" then [] else [⟨outputTitle, outputSummary, current⟩]
| (f, t, table) :: rest =>
  if current.length + (diff_details f t table).length > 60000 then
    ⟨outputTitle, outputSummary, current⟩ :: chunksGo (diff_details f t table) rest
  else
    chunksGo (current ++ diff_details f t table) rest

def buildChunks (details : List (String × String × String)) : List Output :=
  chunksGo "" details

/-- Final packaging (crates/icondiffbot2/src/job_processor.rs, lines 168-173):
the first chunk is drained out of the chunk vector and unwrapped; on an empty
chunk list this drain/unwrap panics. -/
def assembleOutputs (map : List (String × String × List String)) :
    JobResult CheckOutputs :=
  match buildChunks (buildDetails map) with
  | [] => .panicked "drained the first chunk out of an empty chunk list"
  | first :: rest => .ok (if rest = [] then .One first else .Many first rest)

/-- The per-file map-building loop of handle_changed_files
(crates/icondiffbot2/src/job_processor.rs, lines 93-102): each file is
rendered in turn and any failure propagates via `?`, aborting the job. The
per-file render outcome (download, decode and render are external) is supplied
for each file. -/
def collectFiles :
    List (String × JobResult (String × List String)) →
      JobResult (List (String × String × List String))
| [] => .ok []
| (name, r) :: rest =>
  r.bind fun st =>
    (collectFiles rest).bind fun ms =>
      .ok ((name, st.1, st.2) :: ms)

/-- handle_changed_files (crates/icondiffbot2/src/job_processor.rs,
lines 87-174): build the per-file map, then assemble detail blocks and report
chunks. -/
def handle_changed_files
    (renderResults : List (String × JobResult (String × List String))) :
    JobResult CheckOutputs :=
  (collectFiles renderResults).bind assembleOutputs

end Icondiffbot2

namespace Mapdiffbot2

/-- Does the character list start with the given segment? -/
def listStarts : List Char → List Char → Bool
| _, [] => true
| [], _ :: _ => false
| c :: cs, d :: ds => c = d && listStarts cs ds

/-- Does the character list contain the given segment anywhere? Models Rust
str::contains on reference names. -/
def listHasSeg : List Char → List Char → Bool
| [], needle => needle.isEmpty
| c :: cs, needle => listStarts (c :: cs) needle || listHasSeg cs needle

/-- Substring containment on strings, modelling Rust str::contains. -/
def strContains (s seg : String) : Bool :=
  listHasSeg s.data seg.data

/-- Replace every occurrence of one character, modelling
str::replace with a one-character pattern. -/
def replaceChar (c r : Char) (l : List Char) : List Char :=
  l.map fun x => if x = c then r else x

/-- Remove every occurrence of the segment ".dmm", scanning left to right,
modelling str::replace(".dmm", ""). -/
def removeDmm : List Char → List Char
| [] => []
| c :: cs =>
  if listStarts (c :: cs) ['.', 'd', 'm', 'm'] then removeDmm (cs.drop 3)
  else c :: removeDmm cs
termination_by l => l.length
decreasing_by
· simp only [List.length_cons]
  have := List.length_drop 3 cs
  omega
· simp

/-- file_index computed in generate_finished_output
(crates/mapdiffbot2/src/job_processor.rs, lines 241, 255, 276): the file name
with every slash replaced by an underscore and ".dmm" removed. -/
def fileIndex (file : String) : String :=
  String.mk (removeDmm (replaceChar '/' '_' file.data))

/-- Per-z-level classification of a modified map, from the spec data model
(BoundType lives in crates/mapdiffbot2/src/rendering.rs, which is not under
src): None (unchanged), OnlyHead (level added), OnlyBase (level removed),
Both (changed, with a bounding rectangle, carried as its display string). -/
inductive BoundType where
| noBound
| onlyHead
| onlyBase
| both (bounds : String)
deriving DecidableEq

/-- A loaded map with its per-level regions; iter_levels enumerates
(level index, region). Map grid dimensions are carried for the bounds column
of the modified template. MapWithRegions itself lives in rendering.rs (not
under src); this carries exactly what generate_finished_output reads. -/
structure MapWithRegions where
  dimX : Nat
  dimY : Nat
  levels : List BoundType
deriving DecidableEq

/-- Modelled from the spec: crates/mapdiffbot2/templates/diff_template_add.txt
is not under src. An entry block for one added z-level. -/
def diff_template_add (filename imageLink : String) : String :=
  "<details><summary>" ++ filename ++ " added</summary>\n\n![](" ++ imageLink
    ++ ")\n</details>\n"

/-- Modelled from the spec:
crates/mapdiffbot2/templates/diff_template_remove.txt is not under src. An
entry block for one removed z-level. -/
def diff_template_remove (filename imageLink : String) : String :=
  "<details><summary>" ++ filename ++ " removed</summary>\n\n![](" ++ imageLink
    ++ ")\n</details>\n"

/-- Modelled from the spec: crates/mapdiffbot2/templates/diff_template_mod.txt
is not under src. An entry block for one modified z-level: bounds, links and
the old/new/diff rows. -/
def diff_template_mod
    (bounds filename beforeLink afterLink diffLink oldRow newRow diffRow : String) :
    String :=
  "<details><summary>" ++ filename ++ " " ++ bounds ++ "</summary>\n\n"
    ++ beforeLink ++ " " ++ afterLink ++ " " ++ diffLink ++ "\n"
    ++ oldRow ++ "\n" ++ newRow ++ "\n" ++ diffRow ++ "\n</details>\n"

/-- Modelled from the spec:
crates/mapdiffbot2/templates/diff_template_error.txt is not under src. The
inline error block naming the file whose diff failed and the error. -/
def diff_template_error (filename error : String) : String :=
  "<details><summary>" ++ filename ++ " failed to render</summary>\n\n" ++ error
    ++ "\n</details>\n"

def zDeletedText : String := "Z-LEVEL DELETED"

def zAddedText : String := "Z-LEVEL ADDED"

def rowDesc : String := "If the image does not load, use the raw link above"

/-- Blocks contributed by one added map file
(crates/mapdiffbot2/src/job_processor.rs, lines 240-252): one per z-level. -/
def addedFileBlocks (linkBase file : String) (m : MapWithRegions) : List String :=
  m.levels.enum.map fun lv =>
    diff_template_add (file ++ " (Z-level: " ++ toString (lv.1 + 1) ++ ")")
      (linkBase ++ "/a/" ++ fileIndex file ++ "/" ++ toString lv.1 ++ "-added.png")

/-- Blocks contributed by one removed map file
(crates/mapdiffbot2/src/job_processor.rs, lines 254-266): one per z-level. -/
def removedFileBlocks (linkBase file : String) (m : MapWithRegions) : List String :=
  m.levels.enum.map fun lv =>
    diff_template_remove (file ++ " (Z-level: " ++ toString (lv.1 + 1) ++ ")")
      (linkBase ++ "/r/" ++ fileIndex file ++ "/" ++ toString lv.1 ++ "-removed.png")

/-- Blocks contributed by one z-level of a successfully loaded modified map
(crates/mapdiffbot2/src/job_processor.rs, lines 277-334): nothing for an
unchanged level, an added/deleted notice or the full old/new/diff row set
otherwise. -/
def modLevelBlocks (linkBase file : String) (m : MapWithRegions) (level : Nat) :
    BoundType → List String
| .noBound => []
| .onlyHead =>
  [diff_template_mod
    ("(" ++ toString m.dimX ++ ", " ++ toString m.dimY ++ ", " ++ toString (level + 1) ++ ")")
    (file ++ " (Z-level: " ++ toString (level + 1) ++ ")")
    "Unavailable"
    ("[New](" ++ linkBase ++ "/m/" ++ fileIndex file ++ "/" ++ toString level ++ "-after.png)")
    "Unavailable"
    zAddedText
    ("![" ++ rowDesc ++ "](" ++ linkBase ++ "/m/" ++ fileIndex file ++ "/" ++ toString level ++ "-after.png)")
    zAddedText]
| .onlyBase =>
  [diff_template_mod
    ("(" ++ toString m.dimX ++ ", " ++ toString m.dimY ++ ", " ++ toString (level + 1) ++ ")")
    (file ++ " (Z-level: " ++ toString (level + 1) ++ ")")
    "Unavailable" "Unavailable" "Unavailable"
    zDeletedText zDeletedText zDeletedText]
| .both bounds =>
  [diff_template_mod
    bounds
    (file ++ " (Z-level: " ++ toString (level + 1) ++ ")")
    ("[Old](" ++ linkBase ++ "/m/" ++ fileIndex file ++ "/" ++ toString level ++ "-before.png)")
    ("[New](" ++ linkBase ++ "/m/" ++ fileIndex file ++ "/" ++ toString level ++ "-after.png)")
    ("[Diff](" ++ linkBase ++ "/m/" ++ fileIndex file ++ "/" ++ toString level ++ "-diff.png)")
    ("![" ++ rowDesc ++ "](" ++ linkBase ++ "/m/" ++ fileIndex file ++ "/" ++ toString level ++ "-before.png)")
    ("![" ++ rowDesc ++ "](" ++ linkBase ++ "/m/" ++ fileIndex file ++ "/" ++ toString level ++ "-after.png)")
    ("![" ++ rowDesc ++ "](" ++ linkBase ++ "/m/" ++ fileIndex file ++ "/" ++ toString level ++ "-diff.png)")]

/-- Blocks contributed by one successfully loaded modified map file. -/
def modOkBlocks (linkBase file : String) (m : MapWithRegions) : List String :=
  (m.levels.enum.map fun lv => modLevelBlocks linkBase file m lv.1 lv.2).flatten

/-- Blocks contributed by one modified map file
(crates/mapdiffbot2/src/job_processor.rs, lines 272-344): the loop reads the
base-revision load result; a load error becomes the inline error block, a
success contributes its per-level blocks. -/
def modFileBlocks (linkBase : String) :
    String × Except String MapWithRegions → List String
| (file, .error e) => [diff_template_error file e]
| (file, .ok m) => modOkBlocks linkBase file m

/-- generate_finished_output (crates/mapdiffbot2/src/job_processor.rs,
lines 216-347): append added, removed and modified blocks to the builder in
that order and build. The CheckOutputBuilder lives in diffbot_lib (not under
src); it is modelled as the ordered collection of added text blocks. The
function itself always returns Ok. -/
def generate_finished_output (linkBase : String)
    (addedMaps removedMaps : List (String × MapWithRegions))
    (modifiedMaps : List (String × Except String MapWithRegions)) :
    Except String (List String) :=
  Except.ok
    ((addedMaps.map fun p => addedFileBlocks linkBase p.1 p.2).flatten
      ++ (removedMaps.map fun p => removedFileBlocks linkBase p.1 p.2).flatten
      ++ (modifiedMaps.map fun p => modFileBlocks linkBase p).flatten)

/-- The outcome of the render step of do_job, as consumed by
generate_finished_output. -/
structure RenderedMaps where
  addedMaps : List (String × MapWithRegions)
  removedMaps : List (String × MapWithRegions)
  modifiedMaps : List (String × Except String MapWithRegions)

/-- The steps of do_job whose execution the cleanup claim is about. -/
inductive JobAction where
| renderStep
| finishStep
| cleanupStep
deriving DecidableEq

/-- The first half of do_job's tail: render, then on success
generate_finished_output (crates/mapdiffbot2/src/job_processor.rs,
lines 428-438). -/
def render_then_finish (r : Except String RenderedMaps) (linkBase : String) :
    Except String (List String) :=
  match r with
  | .ok m => generate_finished_output linkBase m.addedMaps m.removedMaps m.modifiedMaps
  | .error e => .error e

/-- do_job's render/finish/cleanup tail
(crates/mapdiffbot2/src/job_processor.rs, lines 428-442), with the outcomes of
the external render step and of clean_up_references supplied as oracles.
Returns the list of performed steps alongside the job result.
clean_up_references is invoked unconditionally after the match on the render
result; its failure is returned through the `?` operator with the context
"Cleaning up references", replacing whatever `res` held. -/
def do_job (r : Except String RenderedMaps) (cleanup : Except String Unit)
    (linkBase : String) : List JobAction × Except String (List String) :=
  let acts := match r with
    | .ok _ => [JobAction.renderStep, JobAction.finishStep]
    | .error _ => [JobAction.renderStep]
  let res := render_then_finish r linkBase
  match cleanup with
  | .ok _ => (acts ++ [JobAction.cleanupStep], res)
  | .error e => (acts ++ [JobAction.cleanupStep], .error ("Cleaning up references: " ++ e))

end Mapdiffbot2

namespace GitOps

/-- The state of the physical clone, as far as
crates/mapdiffbot2/src/git_operations.rs manipulates it: the commit objects
present, the references (short name to target commit), the reference HEAD
points at, the commit whose tree the force-cleaned working copy matches, and
the branches of the origin remote. -/
structure GitRepo where
  commits : List Nat
  refs : List (String × Nat)
  head : String
  workTree : Option Nat
  remoteRefs : List (String × Nat)
deriving DecidableEq

/-- Reference lookup by short name, modelling
resolve_reference_from_short_name / find_reference. -/
def lookupRef : List (String × Nat) → String → Option Nat
| [], _ => none
| (n, t) :: rest, key => if n = key then some t else lookupRef rest key

def findRef (repo : GitRepo) (name : String) : Option Nat :=
  lookupRef repo.refs name

/-- Create the reference or force-move it, modelling both
branch_from_annotated_commit with force and Reference::set_target. -/
def upsertRef (refs : List (String × Nat)) (name : String) (tgt : Nat) :
    List (String × Nat) :=
  if (lookupRef refs name).isSome then
    refs.map fun p => if p.1 = name then (name, tgt) else p
  else refs ++ [(name, tgt)]

def setRef (repo : GitRepo) (name : String) (tgt : Nat) : GitRepo :=
  { repo with refs := upsertRef repo.refs name tgt }

/-- Record a fetched commit object in the object store. -/
def addCommit (commits : List Nat) (c : Nat) : List Nat :=
  if c ∈ commits then commits else commits ++ [c]

/-- The local branch name created for the head revision
(crates/mapdiffbot2/src/git_operations.rs, line 82). -/
def mdbPullName (baseSha headSha : Nat) : String :=
  "mdb-pull-" ++ toString baseSha ++ "-" ++ toString headSha

/-- fetch_and_get_branches (crates/mapdiffbot2/src/git_operations.rs,
lines 6-128). Shas are modelled as the commit ids they parse to. Fetching a
branch resolves it on the remote (error when absent, modelling
network/remote failure) and adds its tip to the object store, leaving
FETCH_HEAD at the tip. The base branch is fast-forwarded or created at the
fetched tip and checked out; find_commit of the base sha falls back, on
failure, to peeling the current HEAD (the fetched tip); the branch is then
pointed at the resolved commit. The same is repeated for the head branch
under the mdb-pull name. Finally HEAD returns to the base branch and the
working tree is force-reset to it. Returns the final repository and the two
reference names. -/
def fetch_and_get_branches (baseSha headSha : Nat) (repo : GitRepo)
    (headBranchName baseBranchName : String) :
    Except String (GitRepo × String × String) :=
  match lookupRef repo.remoteRefs baseBranchName with
  | none => .error "Fetching base"
  | some baseTip =>
    let repo1 : GitRepo := { repo with commits := addCommit repo.commits baseTip }
    let repo2 := setRef repo1 baseBranchName baseTip
    let repo3 : GitRepo := { repo2 with head := baseBranchName }
    match findRef repo3 baseBranchName with
    | none => .error "Setting HEAD to base"
    | some fallbackBase =>
      let baseCommit := if baseSha ∈ repo3.commits then baseSha else fallbackBase
      let repo4 := setRef repo3 baseBranchName baseCommit
      match lookupRef repo4.remoteRefs headBranchName with
      | none => .error "Fetching head"
      | some headTip =>
        let repo5 : GitRepo := { repo4 with commits := addCommit repo4.commits headTip }
        let headName := mdbPullName baseSha headSha
        let repo6 := setRef repo5 headName headTip
        let repo7 : GitRepo := { repo6 with head := headName }
        match findRef repo7 headName with
        | none => .error "Setting HEAD to head"
        | some fallbackHead =>
          let headCommit := if headSha ∈ repo7.commits then headSha else fallbackHead
          let repo8 := setRef repo7 headName headCommit
          let repo9 : GitRepo := { repo8 with head := baseBranchName }
          match findRef repo9 baseBranchName with
          | none => .error "Setting head to default branch"
          | some wt =>
            let repo10 : GitRepo := { repo9 with workTree := some wt }
            .ok (repo10, baseBranchName, headName)

/-- clean_up_references (crates/mapdiffbot2/src/git_operations.rs,
lines 130-162): point HEAD back at the named branch, force-checkout its tree
(removing ignored and untracked files), then delete every reference whose
name contains "pull-". -/
def clean_up_references (repo : GitRepo) (branch : String) :
    Except String GitRepo :=
  match findRef repo branch with
  | none => .error "Setting head"
  | some target =>
    .ok { repo with
      head := branch
      workTree := some target
      refs := repo.refs.filter fun p => ! Mapdiffbot2.strContains p.1 "pull-" }

end GitOps

/-- Equality of Rust Result values is decidable. -/
instance exceptDecEq {ε α : Type} [DecidableEq ε] [DecidableEq α] :
    DecidableEq (Except ε α)
| .ok x, .ok y =>
  if h : x = y then .isTrue (by rw [h])
  else .isFalse (by intro hc; injection hc with hc; exact h hc)
| .ok _, .error _ => .isFalse fun hc => Except.noConfusion hc
| .error _, .ok _ => .isFalse fun hc => Except.noConfusion hc
| .error e, .error f =>
  if h : e = f then .isTrue (by rw [h])
  else .isFalse (by intro hc; injection hc with hc; exact h hc)

/-- Concatenation of a list of strings, used to state the reconstruction
property of the chunk assembler. -/
def concatAll : List String → String
| [] => ""
| s :: rest => s ++ concatAll rest

/-- A state line whose length equals the detail ceiling exactly. -/
def bigState : String := String.mk (List.replicate 55000 'a')

/-- Two presentations of the same file-to-states mapping in different
iteration orders (the upstream grouping is a HashMap, whose iteration order
is unspecified). -/
def permInput1 : List (String × String × List String) :=
  [("a.dmi", "MODIFIED", ["state a"]), ("b.dmi", "MODIFIED", ["state b"])]

def permInput2 : List (String × String × List String) :=
  [("b.dmi", "MODIFIED", ["state b"]), ("a.dmi", "MODIFIED", ["state a"])]

/-- A one-state icon fixture. -/
def wIcon : Icondiffbot2.IconFile := ⟨[⟨"s", 3⟩]⟩

/-- An icon fixture whose states are s (metadata 3) and t. -/
def wIconB : Icondiffbot2.IconFile := ⟨[⟨"s", 3⟩, ⟨"t", 1⟩]⟩

/-- An icon fixture whose states are s (metadata 4, differing from wIconB)
and u. -/
def wIconA : Icondiffbot2.IconFile := ⟨[⟨"s", 4⟩, ⟨"u", 1⟩]⟩

/-- A render_state oracle that always succeeds. -/
def wRs : String → JobResult (String × String) := fun m => .ok (m, "url")

/-- A render_to_images oracle that always succeeds with the same frames. -/
def wIm : String → JobResult Nat := fun _ => .ok 7

/-- A render_to_images oracle that always fails. -/
def w9FailIm : String → JobResult Nat := fun _ => .err "render_to_images failed"

/-- A clone fixture: one local commit, origin has a base branch tip 20 and a
pull refspec tip 30; the shas 1 and 2 resolve to neither. -/
def w5Repo : GitOps.GitRepo :=
  ⟨[10], [("master", 10)], "master", some 10,
    [("master", 20), ("pull/1/head:mdb-1-2", 30)]⟩

/-- A clone fixture holding a stale transient pull branch. -/
def w6Repo : GitOps.GitRepo :=
  ⟨[10, 30], [("master", 10), ("mdb-pull-1-2", 30)], "mdb-pull-1-2", some 30, []⟩

/-- The state of w6Repo after cleanup. -/
def w6Result : GitOps.GitRepo :=
  ⟨[10, 30], [("master", 10)], "master", some 10, []⟩

/-! ## Helper lemmas -/

theorem bigState_length : bigState.length = 55000 := by
  have h : bigState.length = (List.replicate 55000 'a').length := rfl
  rw [h, List.length_replicate]

theorem newline_length : ("\n" : String).length = 1 := rfl

theorem empty_str_length : ("" : String).length = 0 := rfl

/-- Every detail table emitted by detailsGo stays within the ceiling plus the
newline, provided all incoming state lines are within the ceiling; the
invariant is carried by the running table. -/
theorem detailsGo_table_le (f t : String) (sts : List String) :
    ∀ (e : Nat) (c : String), (∀ s ∈ sts, s.length ≤ 55000) → c.length ≤ 55001 →
      ∀ d ∈ Icondiffbot2.detailsGo f t e c sts, d.2.2.length ≤ 55001 := by
  induction sts with
  | nil =>
    intro e c _ hc d hd
    simp only [Icondiffbot2.detailsGo] at hd
    split at hd
    · exact absurd hd (List.not_mem_nil d)
    · rw [List.mem_singleton] at hd
      subst hd
      exact hc
  | cons s rest ih =>
    intro e c hs hc d hd
    have hslen : s.length ≤ 55000 := hs s (List.mem_cons_self ..)
    have hrest : ∀ x ∈ rest, x.length ≤ 55000 :=
      fun x hx => hs x (List.mem_cons_of_mem _ hx)
    simp only [Icondiffbot2.detailsGo] at hd
    by_cases hcond : c.length + s.length > 55000
    · rw [if_pos hcond] at hd
      rcases List.mem_cons.mp hd with h1 | h2
      · subst h1
        exact hc
      · refine ih (e + 1) (s ++ "\n") hrest ?_ d h2
        rw [String.length_append, newline_length]
        omega
    · rw [if_neg hcond] at hd
      refine ih e (c ++ s ++ "\n") hrest ?_ d hd
      rw [String.length_append, String.length_append, newline_length]
      omega

/-- Every detail table of a run stays within the ceiling plus the newline
when every state line is within the ceiling. -/
theorem buildDetails_table_le (files : List (String × String × List String))
    (hs : ∀ x ∈ files, ∀ s ∈ x.2.2, s.length ≤ 55000) :
    ∀ d ∈ Icondiffbot2.buildDetails files, d.2.2.length ≤ 55001 := by
  induction files with
  | nil => intro d hd; exact absurd hd (List.not_mem_nil d)
  | cons x rest ih =>
    obtain ⟨f, t, sts⟩ := x
    intro d hd
    rcases List.mem_append.mp hd with h1 | h2
    · exact detailsGo_table_le f t sts 0 ""
        (hs (f, t, sts) (List.mem_cons_self ..)) (by rw [empty_str_length]; omega) d h1
    · exact ih (fun y hy => hs y (List.mem_cons_of_mem _ hy)) d h2

/-- Every chunk body emitted by chunksGo stays within the report ceiling
provided every rendered detail block does. -/
theorem chunksGo_text_le (details : List (String × String × String)) :
    ∀ c : String,
      (∀ x ∈ details, (Icondiffbot2.diff_details x.1 x.2.1 x.2.2).length ≤ 60000) →
      c.length ≤ 60000 →
      ∀ o ∈ Icondiffbot2.chunksGo c details, o.text.length ≤ 60000 := by
  induction details with
  | nil =>
    intro c _ hc o ho
    simp only [Icondiffbot2.chunksGo] at ho
    split at ho
    · exact absurd ho (List.not_mem_nil o)
    · rw [List.mem_singleton] at ho
      subst ho
      exact hc
  | cons x rest ih =>
    obtain ⟨f, t, table⟩ := x
    intro c hb hc o ho
    have hblk : (Icondiffbot2.diff_details f t table).length ≤ 60000 :=
      hb (f, t, table) (List.mem_cons_self ..)
    have hbrest : ∀ y ∈ rest, (Icondiffbot2.diff_details y.1 y.2.1 y.2.2).length ≤ 60000 :=
      fun y hy => hb y (List.mem_cons_of_mem _ hy)
    simp only [Icondiffbot2.chunksGo] at ho
    by_cases hcond : c.length + (Icondiffbot2.diff_details f t table).length > 60000
    · rw [if_pos hcond] at ho
      rcases List.mem_cons.mp ho with h1 | h2
      · subst h1
        exact hc
      · exact ih _ hbrest hblk o h2
    · rw [if_neg hcond] at ho
      refine ih _ hbrest ?_ o ho
      rw [String.length_append]
      omega

/-- Concatenating the chunk bodies emitted by chunksGo reproduces the running
body followed by the rendered detail blocks, in order. -/
theorem chunksGo_concat (details : List (String × String × String)) :
    ∀ c : String,
      concatAll ((Icondiffbot2.chunksGo c details).map Icondiffbot2.Output.text)
        = c ++ concatAll (details.map fun x => Icondiffbot2.diff_details x.1 x.2.1 x.2.2) := by
  induction details with
  | nil =>
    intro c
    simp only [Icondiffbot2.chunksGo, List.map_nil, concatAll, String.append_empty]
    split
    · next hc => rw [hc]; rfl
    · simp [concatAll, String.append_empty]
  | cons x rest ih =>
    obtain ⟨f, t, table⟩ := x
    intro c
    simp only [Icondiffbot2.chunksGo, List.map_cons, concatAll]
    by_cases hcond : c.length + (Icondiffbot2.diff_details f t table).length > 60000
    · rw [if_pos hcond]
      simp only [List.map_cons, concatAll]
      rw [ih]
    · rw [if_neg hcond, ih, String.append_assoc]

theorem collectFiles_all_empty
    (results : List (String × JobResult (String × List String)))
    (h : ∀ x ∈ results, ∃ t, x.2 = .ok (t, [])) :
    ∃ ms, Icondiffbot2.collectFiles results = .ok ms
      ∧ ∀ m ∈ ms, m.2.2 = ([] : List String) := by
  induction results with
  | nil => exact ⟨[], rfl, by intro m hm; exact absurd hm (List.not_mem_nil m)⟩
  | cons x rest ih =>
    obtain ⟨name, r⟩ := x
    obtain ⟨t, hx⟩ := h (name, r) (List.mem_cons_self ..)
    obtain ⟨ms, hms, hall⟩ := ih fun y hy => h y (List.mem_cons_of_mem _ hy)
    refine ⟨(name, t, []) :: ms, ?_, ?_⟩
    · simp only [Icondiffbot2.collectFiles] at hx ⊢
      rw [hx, hms]
      rfl
    · intro m hm
      rcases List.mem_cons.mp hm with h1 | h2
      · subst h1; rfl
      · exact hall m h2

theorem buildDetails_nil_of_empty (ms : List (String × String × List String))
    (h : ∀ m ∈ ms, m.2.2 = ([] : List String)) :
    Icondiffbot2.buildDetails ms = [] := by
  induction ms with
  | nil => rfl
  | cons m rest ih =>
    obtain ⟨f, t, sts⟩ := m
    have h1 : sts = [] := h (f, t, sts) (List.mem_cons_self ..)
    subst h1
    simp only [Icondiffbot2.buildDetails, Icondiffbot2.detailsGo, if_pos rfl,
      List.nil_append]
    exact ih fun y hy => h y (List.mem_cons_of_mem _ hy)

/-- The symmetric-difference loop, on success, emits exactly one entry per
iterated name, in order: a Deleted entry when the name is a base-side name
and a Created entry otherwise, never a Modified entry. -/
theorem symmLoop_ok (bn : List String)
    (rsB rsA : String → JobResult (String × String)) :
    ∀ (lst : List String) (es : List Icondiffbot2.DiffEntry),
      Icondiffbot2.symmLoop bn rsB rsA lst = .ok es →
      es.map Icondiffbot2.DiffEntry.key = lst
      ∧ ∀ e ∈ es, e.change ≠ Icondiffbot2.ChangeText.Modified
        ∧ (e.change = Icondiffbot2.ChangeText.Deleted ↔ e.key ∈ bn) := by
  intro lst
  induction lst with
  | nil =>
    intro es h
    simp only [Icondiffbot2.symmLoop] at h
    injection h with h
    subst h
    exact ⟨rfl, fun e he => absurd he (List.not_mem_nil e)⟩
  | cons n rest ih =>
    intro es h
    simp only [Icondiffbot2.symmLoop] at h
    by_cases hn : n ∈ bn
    · rw [if_pos hn] at h
      cases hrs : rsB n with
      | ok p =>
        rw [hrs, JobResult.bind_ok] at h
        cases hrec : Icondiffbot2.symmLoop bn rsB rsA rest with
        | ok es2 =>
          rw [hrec, JobResult.bind_ok] at h
          injection h with h
          subst h
          obtain ⟨ih1, ih2⟩ := ih es2 hrec
          refine ⟨by rw [List.map_cons, ih1], ?_⟩
          intro e he
          rcases List.mem_cons.mp he with h1 | h2
          · subst h1
            exact ⟨fun hc => Icondiffbot2.ChangeText.noConfusion hc,
              ⟨fun _ => hn, fun _ => rfl⟩⟩
          · exact ih2 e h2
        | err e2 => rw [hrec, JobResult.bind_err] at h; exact JobResult.noConfusion h
        | panicked m2 =>
          rw [hrec, JobResult.bind_panicked] at h; exact JobResult.noConfusion h
      | err e2 => rw [hrs, JobResult.bind_err] at h; exact JobResult.noConfusion h
      | panicked m2 =>
        rw [hrs, JobResult.bind_panicked] at h; exact JobResult.noConfusion h
    · rw [if_neg hn] at h
      cases hrs : rsA n with
      | ok p =>
        rw [hrs, JobResult.bind_ok] at h
        cases hrec : Icondiffbot2.symmLoop bn rsB rsA rest with
        | ok es2 =>
          rw [hrec, JobResult.bind_ok] at h
          injection h with h
          subst h
          obtain ⟨ih1, ih2⟩ := ih es2 hrec
          refine ⟨by rw [List.map_cons, ih1], ?_⟩
          intro e he
          rcases List.mem_cons.mp he with h1 | h2
          · subst h1
            exact ⟨fun hc => Icondiffbot2.ChangeText.noConfusion hc,
              ⟨fun hc => Icondiffbot2.ChangeText.noConfusion hc,
                fun hmem => absurd hmem hn⟩⟩
          · exact ih2 e h2
        | err e2 => rw [hrec, JobResult.bind_err] at h; exact JobResult.noConfusion h
        | panicked m2 =>
          rw [hrec, JobResult.bind_panicked] at h; exact JobResult.noConfusion h
      | err e2 => rw [hrs, JobResult.bind_err] at h; exact JobResult.noConfusion h
      | panicked m2 =>
        rw [hrs, JobResult.bind_panicked] at h; exact JobResult.noConfusion h

/-- The intersection loop, on success, evaluated exactly the iterated
candidate names, and every entry it emitted is a Modified entry for one of
those names. -/
theorem interLoop_ok (before after : Icondiffbot2.IconFile)
    (rsB rsA : String → JobResult (String × String))
    (imB imA : String → JobResult Nat) :
    ∀ (lst : List String) (es : List Icondiffbot2.DiffEntry) (cs : List String),
      Icondiffbot2.interLoop before after rsB rsA imB imA lst = .ok (es, cs) →
      cs = lst
      ∧ ∀ e ∈ es, e.change = Icondiffbot2.ChangeText.Modified ∧ e.key ∈ lst := by
  intro lst
  induction lst with
  | nil =>
    intro es cs h
    simp only [Icondiffbot2.interLoop] at h
    injection h with h
    rw [Prod.mk.injEq] at h
    obtain ⟨h1, h2⟩ := h
    subst h1
    subst h2
    exact ⟨rfl, fun e he => absurd he (List.not_mem_nil e)⟩
  | cons n rest ih =>
    intro es cs h
    simp only [Icondiffbot2.interLoop] at h
    split at h
    case h_2 => exact JobResult.noConfusion h
    case h_1 bs hs hgb hga =>
      by_cases hmeta : bs = hs
      · rw [if_neg (fun hc => hc hmeta)] at h
        cases him1 : imB n with
        | ok ib =>
          rw [him1, JobResult.bind_ok] at h
          cases him2 : imA n with
          | ok ia =>
            rw [him2, JobResult.bind_ok, JobResult.bind_ok] at h
            by_cases hdiff : ib = ia
            · rw [if_neg (by simp [hdiff])] at h
              cases hrec : Icondiffbot2.interLoop before after rsB rsA imB imA rest with
              | ok rec2 =>
                rw [hrec, JobResult.bind_ok] at h
                injection h with h
                rw [Prod.mk.injEq] at h
                obtain ⟨h1, h2⟩ := h
                subst h1
                subst h2
                obtain ⟨ih1, ih2⟩ := ih rec2.1 rec2.2 (by rw [hrec])
                refine ⟨by rw [ih1], ?_⟩
                intro e he
                obtain ⟨he1, he2⟩ := ih2 e he
                exact ⟨he1, List.mem_cons_of_mem _ he2⟩
              | err e2 =>
                rw [hrec, JobResult.bind_err] at h; exact JobResult.noConfusion h
              | panicked m2 =>
                rw [hrec, JobResult.bind_panicked] at h; exact JobResult.noConfusion h
            · rw [if_pos (by simp [hdiff])] at h
              cases hpb : rsB n with
              | ok pb =>
                rw [hpb, JobResult.bind_ok] at h
                cases hpa : rsA n with
                | ok pa =>
                  rw [hpa, JobResult.bind_ok] at h
                  cases hrec : Icondiffbot2.interLoop before after rsB rsA imB imA rest with
                  | ok rec2 =>
                    rw [hrec, JobResult.bind_ok] at h
                    injection h with h
                    rw [Prod.mk.injEq] at h
                    obtain ⟨h1, h2⟩ := h
                    subst h1
                    subst h2
                    obtain ⟨ih1, ih2⟩ := ih rec2.1 rec2.2 (by rw [hrec])
                    refine ⟨by rw [ih1], ?_⟩
                    intro e he
                    rcases List.mem_cons.mp he with h1 | h2
                    · subst h1
                      exact ⟨rfl, List.mem_cons_self ..⟩
                    · obtain ⟨he1, he2⟩ := ih2 e h2
                      exact ⟨he1, List.mem_cons_of_mem _ he2⟩
                  | err e2 =>
                    rw [hrec, JobResult.bind_err] at h; exact JobResult.noConfusion h
                  | panicked m2 =>
                    rw [hrec, JobResult.bind_panicked] at h
                    exact JobResult.noConfusion h
                | err e2 =>
                  rw [hpa, JobResult.bind_err] at h; exact JobResult.noConfusion h
                | panicked m2 =>
                  rw [hpa, JobResult.bind_panicked] at h; exact JobResult.noConfusion h
              | err e2 =>
                rw [hpb, JobResult.bind_err] at h; exact JobResult.noConfusion h
              | panicked m2 =>
                rw [hpb, JobResult.bind_panicked] at h; exact JobResult.noConfusion h
          | err e2 =>
            rw [him2, JobResult.bind_err, JobResult.bind_err] at h
            exact JobResult.noConfusion h
          | panicked m2 =>
            rw [him2, JobResult.bind_panicked, JobResult.bind_panicked] at h
            exact JobResult.noConfusion h
        | err e2 =>
          rw [him1, JobResult.bind_err, JobResult.bind_err] at h
          exact JobResult.noConfusion h
        | panicked m2 =>
          rw [him1, JobResult.bind_panicked, JobResult.bind_panicked] at h
          exact JobResult.noConfusion h
      · rw [if_pos hmeta, JobResult.bind_ok, if_pos rfl] at h
        cases hpb : rsB n with
        | ok pb =>
          rw [hpb, JobResult.bind_ok] at h
          cases hpa : rsA n with
          | ok pa =>
            rw [hpa, JobResult.bind_ok] at h
            cases hrec : Icondiffbot2.interLoop before after rsB rsA imB imA rest with
            | ok rec2 =>
              rw [hrec, JobResult.bind_ok] at h
              injection h with h
              rw [Prod.mk.injEq] at h
              obtain ⟨h1, h2⟩ := h
              subst h1
              subst h2
              obtain ⟨ih1, ih2⟩ := ih rec2.1 rec2.2 (by rw [hrec])
              refine ⟨by rw [ih1], ?_⟩
              intro e he
              rcases List.mem_cons.mp he with h1 | h2
              · subst h1
                exact ⟨rfl, List.mem_cons_self ..⟩
              · obtain ⟨he1, he2⟩ := ih2 e h2
                exact ⟨he1, List.mem_cons_of_mem _ he2⟩
            | err e2 =>
              rw [hrec, JobResult.bind_err] at h; exact JobResult.noConfusion h
            | panicked m2 =>
              rw [hrec, JobResult.bind_panicked] at h; exact JobResult.noConfusion h
          | err e2 => rw [hpa, JobResult.bind_err] at h; exact JobResult.noConfusion h
          | panicked m2 =>
            rw [hpa, JobResult.bind_panicked] at h; exact JobResult.noConfusion h
        | err e2 => rw [hpb, JobResult.bind_err] at h; exact JobResult.noConfusion h
        | panicked m2 =>
          rw [hpb, JobResult.bind_panicked] at h; exact JobResult.noConfusion h

/-- For a name whose two states have equal metadata and equal rendered pixel
frames, the intersection loop never emits an entry keyed by that name. -/
theorem interLoop_clean (before after : Icondiffbot2.IconFile)
    (rsB rsA : String → JobResult (String × String))
    (imB imA : String → JobResult Nat)
    (n : String) (st : Icondiffbot2.IconState) (px : Nat)
    (hb : Icondiffbot2.get_icon_state before n = some st)
    (ha : Icondiffbot2.get_icon_state after n = some st)
    (hib : imB n = .ok px) (hia : imA n = .ok px) :
    ∀ (lst : List String) (es : List Icondiffbot2.DiffEntry) (cs : List String),
      Icondiffbot2.interLoop before after rsB rsA imB imA lst = .ok (es, cs) →
      ∀ e ∈ es, e.key ≠ n := by
  intro lst
  induction lst with
  | nil =>
    intro es cs h
    simp only [Icondiffbot2.interLoop] at h
    injection h with h
    rw [Prod.mk.injEq] at h
    obtain ⟨h1, _⟩ := h
    subst h1
    exact fun e he => absurd he (List.not_mem_nil e)
  | cons m rest ih =>
    intro es cs h
    simp only [Icondiffbot2.interLoop] at h
    split at h
    case h_2 => exact JobResult.noConfusion h
    case h_1 bs hs hgb hga =>
      by_cases hm : m = n
      · subst hm
        rw [hgb] at hb
        rw [hga] at ha
        injection hb with hb
        injection ha with ha
        subst hb
        subst ha
        rw [if_neg (fun hc => hc rfl), hib, JobResult.bind_ok, hia,
          JobResult.bind_ok, JobResult.bind_ok,
          if_neg (by simp)] at h
        cases hrec : Icondiffbot2.interLoop before after rsB rsA imB imA rest with
        | ok rec2 =>
          rw [hrec, JobResult.bind_ok] at h
          injection h with h
          rw [Prod.mk.injEq] at h
          obtain ⟨h1, _⟩ := h
          subst h1
          exact ih rec2.1 rec2.2 (by rw [hrec])
        | err e2 => rw [hrec, JobResult.bind_err] at h; exact JobResult.noConfusion h
        | panicked m2 =>
          rw [hrec, JobResult.bind_panicked] at h; exact JobResult.noConfusion h
      · by_cases hmeta : bs = hs
        · rw [if_neg (fun hc => hc hmeta)] at h
          cases him1 : imB m with
          | ok ib =>
            rw [him1, JobResult.bind_ok] at h
            cases him2 : imA m with
            | ok ia =>
              rw [him2, JobResult.bind_ok, JobResult.bind_ok] at h
              by_cases hdiff : ib = ia
              · rw [if_neg (by simp [hdiff])] at h
                cases hrec : Icondiffbot2.interLoop before after rsB rsA imB imA rest with
                | ok rec2 =>
                  rw [hrec, JobResult.bind_ok] at h
                  injection h with h
                  rw [Prod.mk.injEq] at h
                  obtain ⟨h1, _⟩ := h
                  subst h1
                  exact ih rec2.1 rec2.2 (by rw [hrec])
                | err e2 =>
                  rw [hrec, JobResult.bind_err] at h; exact JobResult.noConfusion h
                | panicked m2 =>
                  rw [hrec, JobResult.bind_panicked] at h; exact JobResult.noConfusion h
              · rw [if_pos (by simp [hdiff])] at h
                cases hpb : rsB m with
                | ok pb =>
                  rw [hpb, JobResult.bind_ok] at h
                  cases hpa : rsA m with
                  | ok pa =>
                    rw [hpa, JobResult.bind_ok] at h
                    cases hrec :
                        Icondiffbot2.interLoop before after rsB rsA imB imA rest with
                    | ok rec2 =>
                      rw [hrec, JobResult.bind_ok] at h
                      injection h with h
                      rw [Prod.mk.injEq] at h
                      obtain ⟨h1, _⟩ := h
                      subst h1
                      intro e he
                      rcases List.mem_cons.mp he with h1 | h2
                      · subst h1; exact hm
                      · exact ih rec2.1 rec2.2 (by rw [hrec]) e h2
                    | err e2 =>
                      rw [hrec, JobResult.bind_err] at h; exact JobResult.noConfusion h
                    | panicked m2 =>
                      rw [hrec, JobResult.bind_panicked] at h
                      exact JobResult.noConfusion h
                  | err e2 =>
                    rw [hpa, JobResult.bind_err] at h; exact JobResult.noConfusion h
                  | panicked m2 =>
                    rw [hpa, JobResult.bind_panicked] at h
                    exact JobResult.noConfusion h
                | err e2 =>
                  rw [hpb, JobResult.bind_err] at h; exact JobResult.noConfusion h
                | panicked m2 =>
                  rw [hpb, JobResult.bind_panicked] at h; exact JobResult.noConfusion h
            | err e2 =>
              rw [him2, JobResult.bind_err, JobResult.bind_err] at h
              exact JobResult.noConfusion h
            | panicked m2 =>
              rw [him2, JobResult.bind_panicked, JobResult.bind_panicked] at h
              exact JobResult.noConfusion h
          | err e2 =>
            rw [him1, JobResult.bind_err, JobResult.bind_err] at h
            exact JobResult.noConfusion h
          | panicked m2 =>
            rw [him1, JobResult.bind_panicked, JobResult.bind_panicked] at h
            exact JobResult.noConfusion h
        · rw [if_pos hmeta, JobResult.bind_ok, if_pos rfl] at h
          cases hpb : rsB m with
          | ok pb =>
            rw [hpb, JobResult.bind_ok] at h
            cases hpa : rsA m with
            | ok pa =>
              rw [hpa, JobResult.bind_ok] at h
              cases hrec : Icondiffbot2.interLoop before after rsB rsA imB imA rest with
              | ok rec2 =>
                rw [hrec, JobResult.bind_ok] at h
                injection h with h
                rw [Prod.mk.injEq] at h
                obtain ⟨h1, _⟩ := h
                subst h1
                intro e he
                rcases List.mem_cons.mp he with h1 | h2
                · subst h1; exact hm
                · exact ih rec2.1 rec2.2 (by rw [hrec]) e h2
              | err e2 =>
                rw [hrec, JobResult.bind_err] at h; exact JobResult.noConfusion h
              | panicked m2 =>
                rw [hrec, JobResult.bind_panicked] at h; exact JobResult.noConfusion h
            | err e2 => rw [hpa, JobResult.bind_err] at h; exact JobResult.noConfusion h
            | panicked m2 =>
              rw [hpa, JobResult.bind_panicked] at h; exact JobResult.noConfusion h
          | err e2 => rw [hpb, JobResult.bind_err] at h; exact JobResult.noConfusion h
          | panicked m2 =>
            rw [hpb, JobResult.bind_panicked] at h; exact JobResult.noConfusion h

/-- Split a successful modifiedRender into its two loop runs. -/
theorem modifiedRender_split (before after : Icondiffbot2.IconFile)
    (rsB rsA : String → JobResult (String × String))
    (imB imA : String → JobResult Nat)
    (entries : List Icondiffbot2.DiffEntry) (cands : List String)
    (h : Icondiffbot2.modifiedRender before after rsB rsA imB imA
      = .ok (entries, cands)) :
    ∃ se rec2,
      Icondiffbot2.symmLoop (Icondiffbot2.state_names before) rsB rsA
        (Icondiffbot2.symmNames before after) = .ok se
      ∧ Icondiffbot2.interLoop before after rsB rsA imB imA
          (Icondiffbot2.interNames before after) = .ok rec2
      ∧ entries = se ++ rec2.1 ∧ cands = rec2.2 := by
  simp only [Icondiffbot2.modifiedRender] at h
  cases hsym : Icondiffbot2.symmLoop (Icondiffbot2.state_names before) rsB rsA
      (Icondiffbot2.symmNames before after) with
  | ok se =>
    rw [hsym, JobResult.bind_ok] at h
    cases hint : Icondiffbot2.interLoop before after rsB rsA imB imA
        (Icondiffbot2.interNames before after) with
    | ok rec2 =>
      rw [hint, JobResult.bind_ok] at h
      injection h with h
      rw [Prod.mk.injEq] at h
      exact ⟨se, rec2, rfl, rfl, h.1.symm, h.2.symm⟩
    | err e2 => rw [hint, JobResult.bind_err] at h; exact JobResult.noConfusion h
    | panicked m2 =>
      rw [hint, JobResult.bind_panicked] at h; exact JobResult.noConfusion h
  | err e2 => rw [hsym, JobResult.bind_err] at h; exact JobResult.noConfusion h
  | panicked m2 =>
    rw [hsym, JobResult.bind_panicked] at h; exact JobResult.noConfusion h

/-- A failing entry anywhere in the per-file loop prevents collectFiles from
returning a value. -/
theorem collectFiles_fail :
    ∀ (results : List (String × JobResult (String × List String))),
      (∃ x ∈ results, x.2.isOk = false) →
      ∀ ms, Icondiffbot2.collectFiles results ≠ .ok ms := by
  intro results
  induction results with
  | nil =>
    intro h ms _
    obtain ⟨x, hx, _⟩ := h
    exact absurd hx (List.not_mem_nil x)
  | cons y rest ih =>
    intro h ms hcontra
    obtain ⟨name, r⟩ := y
    simp only [Icondiffbot2.collectFiles] at hcontra
    cases hr : r with
    | ok st =>
      rw [hr, JobResult.bind_ok] at hcontra
      cases hrec : Icondiffbot2.collectFiles rest with
      | ok ms2 =>
        obtain ⟨x, hx, hfail⟩ := h
        rcases List.mem_cons.mp hx with h1 | h2
        · subst h1
          rw [hr] at hfail
          exact absurd hfail (by simp)
        · exact ih ⟨x, h2, hfail⟩ ms2 hrec
      | err e2 => rw [hrec, JobResult.bind_err] at hcontra; exact JobResult.noConfusion hcontra
      | panicked m2 =>
        rw [hrec, JobResult.bind_panicked] at hcontra
        exact JobResult.noConfusion hcontra
    | err e => rw [hr, JobResult.bind_err] at hcontra; exact JobResult.noConfusion hcontra
    | panicked m =>
      rw [hr, JobResult.bind_panicked] at hcontra; exact JobResult.noConfusion hcontra

/-- generate_finished_output always completes, its report contains the inline
error block of every failed modified map, and it contains every block of
every successfully loaded modified map. -/
theorem generate_output_blocks (linkBase : String)
    (addedMaps removedMaps : List (String × Mapdiffbot2.MapWithRegions))
    (modifiedMaps : List (String × Except String Mapdiffbot2.MapWithRegions)) :
    ∃ blocks,
      Mapdiffbot2.generate_finished_output linkBase addedMaps removedMaps modifiedMaps
        = Except.ok blocks
      ∧ (∀ f e, (f, Except.error e) ∈ modifiedMaps →
          Mapdiffbot2.diff_template_error f e ∈ blocks)
      ∧ (∀ f m, (f, Except.ok m) ∈ modifiedMaps →
          ∀ blk ∈ Mapdiffbot2.modOkBlocks linkBase f m, blk ∈ blocks) := by
  refine ⟨_, rfl, ?_, ?_⟩
  · intro f e hmem
    apply List.mem_append_right
    rw [List.mem_flatten]
    refine ⟨[Mapdiffbot2.diff_template_error f e], ?_, List.mem_singleton_self _⟩
    have := List.mem_map_of_mem (Mapdiffbot2.modFileBlocks linkBase) hmem
    exact this
  · intro f m hmem blk hblk
    apply List.mem_append_right
    rw [List.mem_flatten]
    refine ⟨Mapdiffbot2.modOkBlocks linkBase f m, ?_, hblk⟩
    have := List.mem_map_of_mem (Mapdiffbot2.modFileBlocks linkBase) hmem
    exact this

theorem lookupRef_cons (p : String × Nat) (l : List (String × Nat)) (key : String) :
    GitOps.lookupRef (p :: l) key
      = if p.1 = key then some p.2 else GitOps.lookupRef l key := by
  obtain ⟨a, b⟩ := p
  rfl

theorem lookupRef_map_set (refs : List (String × Nat)) (n : String) (t : Nat)
    (h : (GitOps.lookupRef refs n).isSome) :
    GitOps.lookupRef (refs.map fun p => if p.1 = n then (n, t) else p) n = some t := by
  induction refs with
  | nil => simp [GitOps.lookupRef] at h
  | cons p rest ih =>
    rw [lookupRef_cons] at h
    rw [List.map_cons]
    by_cases hp : p.1 = n
    · rw [if_pos hp, lookupRef_cons, if_pos rfl]
    · rw [if_neg hp, lookupRef_cons, if_neg hp]
      rw [if_neg hp] at h
      exact ih h

theorem lookupRef_map_other (refs : List (String × Nat)) (n : String) (t : Nat)
    (m : String) (hm : m ≠ n) :
    GitOps.lookupRef (refs.map fun p => if p.1 = n then (n, t) else p) m
      = GitOps.lookupRef refs m := by
  induction refs with
  | nil => rfl
  | cons p rest ih =>
    rw [List.map_cons, lookupRef_cons, lookupRef_cons]
    by_cases hp : p.1 = n
    · rw [if_pos hp, if_neg (fun hc => hm hc.symm),
        if_neg (fun hc => hm (hp.symm.trans hc).symm)]
      exact ih
    · rw [if_neg hp, ih]

theorem lookupRef_append_missing (refs : List (String × Nat)) (n : String) (t : Nat)
    (h : GitOps.lookupRef refs n = none) :
    GitOps.lookupRef (refs ++ [(n, t)]) n = some t := by
  induction refs with
  | nil => simp [GitOps.lookupRef, lookupRef_cons]
  | cons p rest ih =>
    rw [lookupRef_cons] at h
    rw [List.cons_append, lookupRef_cons]
    by_cases hp : p.1 = n
    · rw [if_pos hp] at h
      exact Option.noConfusion h
    · rw [if_neg hp] at h
      rw [if_neg hp]
      exact ih h

theorem lookupRef_append_other (refs : List (String × Nat)) (n : String) (t : Nat)
    (m : String) (hm : m ≠ n) :
    GitOps.lookupRef (refs ++ [(n, t)]) m = GitOps.lookupRef refs m := by
  induction refs with
  | nil =>
    rw [List.nil_append, lookupRef_cons, if_neg (fun hc => hm hc.symm)]
  | cons p rest ih =>
    rw [List.cons_append, lookupRef_cons, lookupRef_cons, ih]

@[simp] theorem lookupRef_upsert_self (refs : List (String × Nat)) (n : String) (t : Nat) :
    GitOps.lookupRef (GitOps.upsertRef refs n t) n = some t := by
  unfold GitOps.upsertRef
  by_cases h : (GitOps.lookupRef refs n).isSome
  · rw [if_pos h]
    exact lookupRef_map_set refs n t h
  · rw [if_neg h]
    apply lookupRef_append_missing
    cases hl : GitOps.lookupRef refs n with
    | none => rfl
    | some v => rw [hl] at h; exact absurd rfl h

theorem lookupRef_upsert_other (refs : List (String × Nat)) (n : String) (t : Nat)
    (m : String) (hm : m ≠ n) :
    GitOps.lookupRef (GitOps.upsertRef refs n t) m = GitOps.lookupRef refs m := by
  unfold GitOps.upsertRef
  split
  · exact lookupRef_map_other refs n t m hm
  · exact lookupRef_append_other refs n t m hm

/-- Running fetch_and_get_branches under successful fetches: it returns Ok,
the base reference ends at the base sha when that sha exists after the fetch
and at the fetched base tip otherwise, and likewise for the head reference. -/
theorem fetch_run (baseSha headSha : Nat) (repo : GitOps.GitRepo)
    (headBranchName baseBranchName : String) (baseTip headTip : Nat)
    (hfb : GitOps.lookupRef repo.remoteRefs baseBranchName = some baseTip)
    (hfh : GitOps.lookupRef repo.remoteRefs headBranchName = some headTip)
    (hname : baseBranchName ≠ GitOps.mdbPullName baseSha headSha) :
    ∃ repoF,
      GitOps.fetch_and_get_branches baseSha headSha repo headBranchName baseBranchName
        = .ok (repoF, baseBranchName, GitOps.mdbPullName baseSha headSha)
      ∧ GitOps.findRef repoF baseBranchName
          = some (if baseSha ∈ GitOps.addCommit repo.commits baseTip then baseSha
              else baseTip)
      ∧ GitOps.findRef repoF (GitOps.mdbPullName baseSha headSha)
          = some (if headSha ∈ GitOps.addCommit (GitOps.addCommit repo.commits baseTip)
                headTip then headSha
              else headTip) := by
  simp only [GitOps.fetch_and_get_branches, GitOps.findRef, GitOps.setRef, hfb, hfh,
    lookupRef_upsert_self]
  rw [lookupRef_upsert_other _ _ _ _ hname, lookupRef_upsert_other _ _ _ _ hname,
    lookupRef_upsert_self]
  refine ⟨_, rfl, ?_, ?_⟩
  · simp only [GitOps.findRef]
    rw [lookupRef_upsert_other _ _ _ _ hname, lookupRef_upsert_other _ _ _ _ hname,
      lookupRef_upsert_self]
  · simp only [GitOps.findRef]
    rw [lookupRef_upsert_self]

/-! ## Claim theorems -/

/-- C2: for a state name present in both revisions of a modified sprite
sheet, when the structural metadata of the two states is equal and the
rendered pixel frames of the two states are equal, the diff engine emits no
Modified entry for that state. -/
theorem c2_theorem (before after : Icondiffbot2.IconFile)
    (rsB rsA : String → JobResult (String × String))
    (imB imA : String → JobResult Nat)
    (n : String) (st : Icondiffbot2.IconState) (px : Nat)
    (hb : Icondiffbot2.get_icon_state before n = some st)
    (ha : Icondiffbot2.get_icon_state after n = some st)
    (hib : imB n = .ok px) (hia : imA n = .ok px)
    (entries : List Icondiffbot2.DiffEntry) (cands : List String)
    (h : Icondiffbot2.modifiedRender before after rsB rsA imB imA
      = .ok (entries, cands)) :
    ∀ e ∈ entries,
      ¬(e.key = n ∧ e.change = Icondiffbot2.ChangeText.Modified) := by
  obtain ⟨se, rec2, hsym, hint, hent, _⟩ :=
    modifiedRender_split before after rsB rsA imB imA entries cands h
  subst hent
  intro e he ⟨hkey, hchange⟩
  rcases List.mem_append.mp he with h1 | h2
  · exact ((symmLoop_ok _ rsB rsA _ se hsym).2 e h1).1 hchange
  · exact interLoop_clean before after rsB rsA imB imA n st px hb ha hib hia
      _ rec2.1 rec2.2 (by rw [hint]) e h2 hkey

/-- Witness for c2_theorem: a modified file whose single state s has equal
metadata and equal rendered frames in both revisions yields no entry at
all. -/
theorem c2_witness :
    Icondiffbot2.get_icon_state wIcon "s" = some ⟨"s", 3⟩
    ∧ wIm "s" = .ok 7
    ∧ Icondiffbot2.modifiedRender wIcon wIcon wRs wRs wIm wIm = .ok ([], ["s"])
    ∧ ∀ e ∈ ([] : List Icondiffbot2.DiffEntry),
        ¬(e.key = "s" ∧ e.change = Icondiffbot2.ChangeText.Modified) :=
  ⟨by decide, rfl, by decide,
    c2_theorem wIcon wIcon wRs wRs wIm wIm "s" ⟨"s", 3⟩ 7 (by decide) (by decide)
      rfl rfl [] ["s"] (by decide)⟩

/-- C3: for a modified sprite sheet, the non-Modified entries are exactly the
symmetric difference of the two state-name sets, in order — Deleted exactly
for base-side names, Created exactly for head-side names — and the candidates
evaluated for the Modified classification are exactly the intersection. -/
theorem c3_theorem (before after : Icondiffbot2.IconFile)
    (rsB rsA : String → JobResult (String × String))
    (imB imA : String → JobResult Nat)
    (entries : List Icondiffbot2.DiffEntry) (cands : List String)
    (h : Icondiffbot2.modifiedRender before after rsB rsA imB imA
      = .ok (entries, cands)) :
    (entries.filter
        (fun e => !decide (e.change = Icondiffbot2.ChangeText.Modified))).map
        Icondiffbot2.DiffEntry.key = Icondiffbot2.symmNames before after
    ∧ (∀ e ∈ entries, e.change = Icondiffbot2.ChangeText.Deleted →
        e.key ∈ Icondiffbot2.state_names before
          ∧ e.key ∉ Icondiffbot2.state_names after)
    ∧ (∀ e ∈ entries, e.change = Icondiffbot2.ChangeText.Created →
        e.key ∈ Icondiffbot2.state_names after
          ∧ e.key ∉ Icondiffbot2.state_names before)
    ∧ cands = Icondiffbot2.interNames before after := by
  obtain ⟨se, rec2, hsym, hint, hent, hcand⟩ :=
    modifiedRender_split before after rsB rsA imB imA entries cands h
  obtain ⟨hs1, hs2⟩ := symmLoop_ok _ rsB rsA _ se hsym
  obtain ⟨hi1, hi2⟩ :=
    interLoop_ok before after rsB rsA imB imA _ rec2.1 rec2.2 (by rw [hint])
  subst hent
  subst hcand
  have hmemse : ∀ e ∈ se ++ rec2.1,
      e.change ≠ Icondiffbot2.ChangeText.Modified → e ∈ se := by
    intro e he hnm
    rcases List.mem_append.mp he with h1 | h2
    · exact h1
    · exact absurd (hi2 e h2).1 hnm
  refine ⟨?_, ?_, ?_, hi1⟩
  · rw [List.filter_append]
    have hfse : se.filter
        (fun e => !decide (e.change = Icondiffbot2.ChangeText.Modified)) = se := by
      rw [List.filter_eq_self]
      intro a ha
      simp [(hs2 a ha).1]
    have hfie : rec2.1.filter
        (fun e => !decide (e.change = Icondiffbot2.ChangeText.Modified)) = [] := by
      rw [List.filter_eq_nil_iff]
      intro a ha
      simp [(hi2 a ha).1]
    rw [hfse, hfie, List.append_nil, hs1]
  · intro e he hdel
    have hein : e ∈ se :=
      hmemse e he (by rw [hdel]; exact fun hc => Icondiffbot2.ChangeText.noConfusion hc)
    have hkey : e.key ∈ Icondiffbot2.symmNames before after := by
      rw [← hs1]
      exact List.mem_map_of_mem _ hein
    have hbn : e.key ∈ Icondiffbot2.state_names before := ((hs2 e hein).2).mp hdel
    rcases List.mem_append.mp hkey with h1 | h2
    · rw [List.mem_filter] at h1
      exact ⟨hbn, by simpa using h1.2⟩
    · rw [List.mem_filter] at h2
      exact absurd hbn (by simpa using h2.2)
  · intro e he hcre
    have hein : e ∈ se :=
      hmemse e he (by rw [hcre]; exact fun hc => Icondiffbot2.ChangeText.noConfusion hc)
    have hkey : e.key ∈ Icondiffbot2.symmNames before after := by
      rw [← hs1]
      exact List.mem_map_of_mem _ hein
    have hnbn : e.key ∉ Icondiffbot2.state_names before := by
      intro hc
      have hd := ((hs2 e hein).2).mpr hc
      rw [hcre] at hd
      exact Icondiffbot2.ChangeText.noConfusion hd
    rcases List.mem_append.mp hkey with h1 | h2
    · rw [List.mem_filter] at h1
      exact absurd h1.1 hnbn
    · rw [List.mem_filter] at h2
      exact ⟨h2.1, by simpa using h2.2⟩

/-- Witness for c3_theorem: base states s (metadata 3), t against head states
s (metadata 4), u give Deleted t, Created u, Modified s, with candidate set
exactly the intersection. -/
theorem c3_witness :
    Icondiffbot2.modifiedRender wIconB wIconA wRs wRs wIm wIm
      = .ok ([⟨"t", "t", "url", "", Icondiffbot2.ChangeText.Deleted⟩,
              ⟨"u", "u", "", "url", Icondiffbot2.ChangeText.Created⟩,
              ⟨"s", "s", "url", "url", Icondiffbot2.ChangeText.Modified⟩], ["s"])
    ∧ (([⟨"t", "t", "url", "", Icondiffbot2.ChangeText.Deleted⟩,
        ⟨"u", "u", "", "url", Icondiffbot2.ChangeText.Created⟩,
        ⟨"s", "s", "url", "url", Icondiffbot2.ChangeText.Modified⟩] :
          List Icondiffbot2.DiffEntry).filter
        (fun e => !decide (e.change = Icondiffbot2.ChangeText.Modified))).map
        Icondiffbot2.DiffEntry.key = Icondiffbot2.symmNames wIconB wIconA
    ∧ ["s"] = Icondiffbot2.interNames wIconB wIconA := by
  have h : Icondiffbot2.modifiedRender wIconB wIconA wRs wRs wIm wIm
      = .ok ([⟨"t", "t", "url", "", Icondiffbot2.ChangeText.Deleted⟩,
              ⟨"u", "u", "", "url", Icondiffbot2.ChangeText.Created⟩,
              ⟨"s", "s", "url", "url", Icondiffbot2.ChangeText.Modified⟩], ["s"]) := by
    decide
  exact ⟨h, (c3_theorem wIconB wIconA wRs wRs wIm wIm _ _ h).1,
    (c3_theorem wIconB wIconA wRs wRs wIm wIm _ _ h).2.2.2⟩

/-- C8, counterexample: a Renamed or Copied file resolves to no sha on either
side, but processing it does not silently skip: the render dispatch hits the
explicit unreachable branch on (None, None) and panics, aborting the job
rather than completing without error. -/
theorem c8_counterexample :
    Icondiffbot2.status_to_sha "b1" "h1" Icondiffbot2.ModifiedFileStatus.Renamed
      = (none, none)
    ∧ Icondiffbot2.status_to_sha "b1" "h1" Icondiffbot2.ModifiedFileStatus.Copied
      = (none, none)
    ∧ Icondiffbot2.renderFile none none wRs wRs wIm wIm
      = .panicked "Diffing (None, None) makes no sense"
    ∧ Icondiffbot2.handle_changed_files
        [("icons/r.dmi", Icondiffbot2.renderFile none none wRs wRs wIm wIm)]
      = .panicked "Diffing (None, None) makes no sense" :=
  ⟨rfl, rfl, rfl, rfl⟩

/-- C8, amended: for every Renamed or Copied file both revision shas resolve
to none, and processing such a file panics in the (None, None) branch of
render, aborting the job, instead of silently skipping the file. -/
theorem c8_amended_theorem (baseSha headSha : String)
    (s : Icondiffbot2.ModifiedFileStatus)
    (hs : s = Icondiffbot2.ModifiedFileStatus.Renamed
      ∨ s = Icondiffbot2.ModifiedFileStatus.Copied)
    (rsB rsA : String → JobResult (String × String))
    (imB imA : String → JobResult Nat) (fname : String) :
    Icondiffbot2.status_to_sha baseSha headSha s = (none, none)
    ∧ Icondiffbot2.renderFile none none rsB rsA imB imA
      = .panicked "Diffing (None, None) makes no sense"
    ∧ Icondiffbot2.handle_changed_files
        [(fname, Icondiffbot2.renderFile none none rsB rsA imB imA)]
      = .panicked "Diffing (None, None) makes no sense" := by
  rcases hs with rfl | rfl <;> exact ⟨rfl, rfl, rfl⟩

/-- Witness for c8_amended_theorem at the Renamed status. -/
theorem c8_amended_witness :
    (Icondiffbot2.ModifiedFileStatus.Renamed = Icondiffbot2.ModifiedFileStatus.Renamed
      ∨ Icondiffbot2.ModifiedFileStatus.Renamed = Icondiffbot2.ModifiedFileStatus.Copied)
    ∧ Icondiffbot2.status_to_sha "b1" "h1" Icondiffbot2.ModifiedFileStatus.Renamed
        = (none, none)
      ∧ Icondiffbot2.renderFile none none wRs wRs wIm wIm
        = .panicked "Diffing (None, None) makes no sense"
      ∧ Icondiffbot2.handle_changed_files
          [("f.dmi", Icondiffbot2.renderFile none none wRs wRs wIm wIm)]
        = .panicked "Diffing (None, None) makes no sense" :=
  ⟨Or.inl rfl,
    c8_amended_theorem "b1" "h1" Icondiffbot2.ModifiedFileStatus.Renamed (Or.inl rfl)
      wRs wRs wIm wIm "f.dmi"⟩

/-- C9, counterexample: in the icon pipeline a failure to render one sprite
state is not confined to that identity: one failing render_to_images call on
the single state of one modified file makes the whole job fail with that
error instead of completing with an inline error block. -/
theorem c9_counterexample :
    Icondiffbot2.handle_changed_files
      [("icons/f.dmi",
        Icondiffbot2.renderFile (some wIcon) (some wIcon) wRs wRs w9FailIm wIm)]
      = .err "render_to_images failed" := by
  decide

/-- C9, amended: in the icon pipeline any file whose render fails prevents
the job from producing a report at all (the error propagates), whereas in the
map pipeline a failed modified map is confined to its file: the report still
completes, contains that file's inline error block, and contains every block
of the sibling files. -/
theorem c9_amended_theorem
    (results : List (String × JobResult (String × List String)))
    (hfail : ∃ x ∈ results, x.2.isOk = false)
    (linkBase : String)
    (addedMaps removedMaps : List (String × Mapdiffbot2.MapWithRegions))
    (modifiedMaps : List (String × Except String Mapdiffbot2.MapWithRegions)) :
    (∀ out, Icondiffbot2.handle_changed_files results ≠ .ok out)
    ∧ ∃ blocks,
        Mapdiffbot2.generate_finished_output linkBase addedMaps removedMaps
          modifiedMaps = Except.ok blocks
        ∧ (∀ f e, (f, Except.error e) ∈ modifiedMaps →
            Mapdiffbot2.diff_template_error f e ∈ blocks)
        ∧ (∀ f m, (f, Except.ok m) ∈ modifiedMaps →
            ∀ blk ∈ Mapdiffbot2.modOkBlocks linkBase f m, blk ∈ blocks) := by
  constructor
  · intro out hcontra
    simp only [Icondiffbot2.handle_changed_files] at hcontra
    cases hcf : Icondiffbot2.collectFiles results with
    | ok ms => exact collectFiles_fail results hfail ms hcf
    | err e =>
      rw [hcf, JobResult.bind_err] at hcontra
      exact JobResult.noConfusion hcontra
    | panicked m =>
      rw [hcf, JobResult.bind_panicked] at hcontra
      exact JobResult.noConfusion hcontra
  · exact generate_output_blocks linkBase addedMaps removedMaps modifiedMaps

/-- Witness for c9_amended_theorem at a one-file icon job whose render
failed. -/
theorem c9_amended_witness :
    (∃ x ∈ ([("f.dmi", JobResult.err "boom")] :
        List (String × JobResult (String × List String))), x.2.isOk = false)
    ∧ ∀ out, Icondiffbot2.handle_changed_files
        ([("f.dmi", JobResult.err "boom")] :
          List (String × JobResult (String × List String))) ≠ .ok out := by
  refine ⟨by decide, ?_⟩
  exact (c9_amended_theorem _ (by decide) "L" [] [] []).1

/-- C1, counterexample: the detail-level ceiling is not respected. A single
state line of length exactly 55,000 passes the pre-append check, and the
appended newline pushes the emitted detail sub-section to 55,001 units,
above the 55,000 ceiling the claim asserts. -/
theorem c1_counterexample :
    ∃ d ∈ Icondiffbot2.buildDetails [("icons.dmi", "MODIFIED", [bigState])],
      55000 < d.2.2.length := by
  have hsum : ("" : String).length + bigState.length = 55000 := by
    rw [empty_str_length, bigState_length]
  have hbig : ("" ++ bigState ++ "\n").length = 55001 := by
    rw [String.length_append, String.length_append, empty_str_length,
      bigState_length, newline_length]
  have hne : ("" ++ bigState ++ "\n") ≠ "" := by
    intro hcontra
    have hL := congrArg String.length hcontra
    rw [hbig, empty_str_length] at hL
    exact absurd hL (by omega)
  have hd : Icondiffbot2.buildDetails [("icons.dmi", "MODIFIED", [bigState])]
      = [(Icondiffbot2.detailName "icons.dmi" 0, "MODIFIED", "" ++ bigState ++ "\n")] := by
    simp only [Icondiffbot2.buildDetails, Icondiffbot2.detailsGo, List.append_nil]
    rw [if_neg (by rw [hsum]; omega), if_neg hne]
  refine ⟨(Icondiffbot2.detailName "icons.dmi" 0, "MODIFIED", "" ++ bigState ++ "\n"),
    ?_, ?_⟩
  · rw [hd]; exact List.mem_singleton_self _
  · rw [show ((Icondiffbot2.detailName "icons.dmi" 0, "MODIFIED",
      "" ++ bigState ++ "\n") : String × String × String).2.2
        = "" ++ bigState ++ "\n" from rfl, hbig]
    omega

/-- C1, amended: when every rendered state line is at most 55,000 units, every
emitted detail sub-section is at most 55,001 units (the ceiling plus the
uncounted newline); and when every rendered detail block is at most 60,000
units, every emitted chunk body is at most 60,000 units. A state line or
detail block above its ceiling is emitted unsplit, exceeding the ceiling. -/
theorem c1_amended_theorem (files : List (String × String × List String))
    (hs : ∀ x ∈ files, ∀ s ∈ x.2.2, s.length ≤ 55000)
    (hb : ∀ x ∈ Icondiffbot2.buildDetails files,
      (Icondiffbot2.diff_details x.1 x.2.1 x.2.2).length ≤ 60000) :
    (∀ d ∈ Icondiffbot2.buildDetails files, d.2.2.length ≤ 55001)
    ∧ ∀ o ∈ Icondiffbot2.buildChunks (Icondiffbot2.buildDetails files),
        o.text.length ≤ 60000 := by
  refine ⟨buildDetails_table_le files hs, ?_⟩
  exact chunksGo_text_le (Icondiffbot2.buildDetails files) "" hb
    (by rw [empty_str_length]; omega)

/-- Witness for c1_amended_theorem at a concrete one-file input. -/
theorem c1_amended_witness :
    (∀ x ∈ [("a.dmi", "MODIFIED", ["line"])], ∀ s ∈ x.2.2, s.length ≤ 55000)
    ∧ ∀ d ∈ Icondiffbot2.buildDetails [("a.dmi", "MODIFIED", ["line"])],
        d.2.2.length ≤ 55001 :=
  ⟨by decide, (c1_amended_theorem [("a.dmi", "MODIFIED", ["line"])]
    (by decide) (by decide)).1⟩

/-- C7, counterexample: the same file-to-states mapping presented in two
different iteration orders (the upstream grouping is an unordered HashMap)
produces two different chunk sequences, so the assembler is not deterministic
as a function of the mapping. -/
theorem c7_counterexample :
    permInput1.Perm permInput2
    ∧ Icondiffbot2.assembleOutputs permInput1
        ≠ Icondiffbot2.assembleOutputs permInput2 := by
  constructor
  · exact List.Perm.swap _ _ _
  · decide

/-- C7, amended: the assembler is a pure, stable packing of the presented
detail-block sequence: the chunk bodies it emits concatenate, in order, to
exactly the concatenation of the rendered detail blocks, so equal presented
sequences yield identical chunk boundaries; but the same mapping presented in
a different iteration order may yield different chunks. -/
theorem c7_amended_theorem (details : List (String × String × String)) :
    concatAll ((Icondiffbot2.buildChunks details).map Icondiffbot2.Output.text)
      = concatAll (details.map fun x => Icondiffbot2.diff_details x.1 x.2.1 x.2.2) := by
  have h := chunksGo_concat details ""
  rw [Icondiffbot2.buildChunks, h, String.empty_append]

/-- C10: when every file of the job contributes zero rendered state lines, no
detail block and hence no chunk is produced, and handle_changed_files panics
draining the first chunk from the empty chunk list instead of returning. -/
theorem c10_theorem (results : List (String × JobResult (String × List String)))
    (h : ∀ x ∈ results, ∃ t, x.2 = .ok (t, [])) :
    Icondiffbot2.handle_changed_files results
      = .panicked "drained the first chunk out of an empty chunk list" := by
  obtain ⟨ms, hms, hall⟩ := collectFiles_all_empty results h
  have hdetails := buildDetails_nil_of_empty ms hall
  simp only [Icondiffbot2.handle_changed_files, hms, JobResult.bind_ok]
  simp [Icondiffbot2.assembleOutputs, Icondiffbot2.buildChunks, hdetails,
    Icondiffbot2.chunksGo]

/-- C4, counterexample: when the render step and report generation succeed
but clean_up_references then fails, do_job does not return the successful
report output: the cleanup error replaces it through the trailing question
mark operator. -/
theorem c4_counterexample :
    Mapdiffbot2.render_then_finish (Except.ok ⟨[], [], []⟩) "L" = Except.ok []
    ∧ (Mapdiffbot2.do_job (Except.ok ⟨[], [], []⟩)
        (Except.error "lock file busy") "L").2
      = Except.error "Cleaning up references: lock file busy" :=
  ⟨rfl, rfl⟩

/-- C4, amended: clean_up_references runs on every exit path of the render
step; when cleanup succeeds, do_job returns the render/report result
unchanged; when cleanup fails, do_job returns the cleanup error as the job
result, discarding even a successful report. -/
theorem c4_amended_theorem (r : Except String Mapdiffbot2.RenderedMaps)
    (cleanup : Except String Unit) (linkBase : String) :
    Mapdiffbot2.JobAction.cleanupStep ∈ (Mapdiffbot2.do_job r cleanup linkBase).1
    ∧ (cleanup = Except.ok () →
        (Mapdiffbot2.do_job r cleanup linkBase).2
          = Mapdiffbot2.render_then_finish r linkBase)
    ∧ ∀ e, cleanup = Except.error e →
        (Mapdiffbot2.do_job r cleanup linkBase).2
          = Except.error ("Cleaning up references: " ++ e) := by
  refine ⟨?_, ?_, ?_⟩
  · cases r <;> cases cleanup <;> simp [Mapdiffbot2.do_job]
  · rintro rfl
    cases r <;> simp [Mapdiffbot2.do_job]
  · rintro e rfl
    cases r <;> simp [Mapdiffbot2.do_job]

/-- Witness for c4_amended_theorem at a successful render and successful
cleanup. -/
theorem c4_amended_witness :
    Mapdiffbot2.JobAction.cleanupStep
      ∈ (Mapdiffbot2.do_job (Except.ok ⟨[], [], []⟩) (Except.ok ()) "L").1
    ∧ (Mapdiffbot2.do_job (Except.ok ⟨[], [], []⟩) (Except.ok ()) "L").2
      = Mapdiffbot2.render_then_finish (Except.ok ⟨[], [], []⟩) "L" :=
  ⟨(c4_amended_theorem (Except.ok ⟨[], [], []⟩) (Except.ok ()) "L").1,
    (c4_amended_theorem (Except.ok ⟨[], [], []⟩) (Except.ok ()) "L").2.1 rfl⟩

/-- C5: when the fetches succeed, fetch_and_get_branches does not fail, and
each side falls back independently: whenever the base sha cannot be resolved
to a commit present after fetching, the returned base reference targets the
fetched base tip, and whenever the head sha cannot be resolved to a commit
present after fetching, the returned head reference targets the fetched head
tip. Unresolvability of one side does not presuppose anything about the
other side. -/
theorem c5_theorem (baseSha headSha : Nat) (repo : GitOps.GitRepo)
    (headBranchName baseBranchName : String) (baseTip headTip : Nat)
    (hfb : GitOps.lookupRef repo.remoteRefs baseBranchName = some baseTip)
    (hfh : GitOps.lookupRef repo.remoteRefs headBranchName = some headTip)
    (hname : baseBranchName ≠ GitOps.mdbPullName baseSha headSha) :
    ∃ repoF,
      GitOps.fetch_and_get_branches baseSha headSha repo headBranchName baseBranchName
        = .ok (repoF, baseBranchName, GitOps.mdbPullName baseSha headSha)
      ∧ ((baseSha ∉ repo.commits ∧ baseSha ≠ baseTip) →
          GitOps.findRef repoF baseBranchName = some baseTip)
      ∧ ((headSha ∉ repo.commits ∧ headSha ≠ baseTip ∧ headSha ≠ headTip) →
          GitOps.findRef repoF (GitOps.mdbPullName baseSha headSha) = some headTip) := by
  obtain ⟨repoF, h1, h2, h3⟩ :=
    fetch_run baseSha headSha repo headBranchName baseBranchName baseTip headTip
      hfb hfh hname
  refine ⟨repoF, h1, ?_, ?_⟩
  · intro hbase
    rw [h2, if_neg]
    rw [GitOps.addCommit]
    split
    · exact fun hc => hbase.1 hc
    · intro hc
      rcases List.mem_append.mp hc with hm | hm
      · exact hbase.1 hm
      · exact hbase.2 (List.mem_singleton.mp hm)
  · intro hhead
    rw [h3, if_neg]
    intro hc
    have hsplit : headSha ∈ GitOps.addCommit repo.commits baseTip ∨ headSha = headTip := by
      rw [GitOps.addCommit] at hc
      split at hc
      · exact Or.inl hc
      · rcases List.mem_append.mp hc with hm | hm
        · exact Or.inl hm
        · exact Or.inr (List.mem_singleton.mp hm)
    rcases hsplit with hm | hm
    · rw [GitOps.addCommit] at hm
      split at hm
      · exact hhead.1 hm
      · rcases List.mem_append.mp hm with hm2 | hm2
        · exact hhead.1 hm2
        · exact hhead.2.1 (List.mem_singleton.mp hm2)
    · exact hhead.2.2 hm

/-- Witness for c5_theorem: a clone where both fetches succeed; each of the
two per-side fallback implications is discharged at its concrete
unresolvable sha, yielding the fetched tips as the reference targets. -/
theorem c5_witness :
    (1 ∉ w5Repo.commits ∧ 1 ≠ 20)
    ∧ (2 ∉ w5Repo.commits ∧ 2 ≠ 20 ∧ 2 ≠ 30)
    ∧ ∃ repoF,
        GitOps.fetch_and_get_branches 1 2 w5Repo "pull/1/head:mdb-1-2" "master"
          = .ok (repoF, "master", GitOps.mdbPullName 1 2)
        ∧ GitOps.findRef repoF "master" = some 20
        ∧ GitOps.findRef repoF (GitOps.mdbPullName 1 2) = some 30 := by
  obtain ⟨repoF, h1, h2, h3⟩ :=
    c5_theorem 1 2 w5Repo "pull/1/head:mdb-1-2" "master" 20 30 (by decide) (by decide)
      (by decide)
  exact ⟨⟨by decide, by decide⟩, ⟨by decide, by decide, by decide⟩,
    repoF, h1, h2 ⟨by decide, by decide⟩, h3 ⟨by decide, by decide, by decide⟩⟩

/-- C6: after a successful clean_up_references, no reference whose name
contains "pull-" remains, HEAD points at the named default branch, and the
working tree is force-reset to that branch's commit. -/
theorem c6_theorem (repo : GitOps.GitRepo) (branch : String)
    (repoF : GitOps.GitRepo)
    (h : GitOps.clean_up_references repo branch = .ok repoF) :
    (∀ p ∈ repoF.refs, Mapdiffbot2.strContains p.1 "pull-" = false)
    ∧ repoF.head = branch
    ∧ repoF.workTree = GitOps.findRef repo branch := by
  unfold GitOps.clean_up_references at h
  cases hf : GitOps.findRef repo branch with
  | none => rw [hf] at h; exact Except.noConfusion h
  | some target =>
    rw [hf] at h
    injection h with h
    subst h
    refine ⟨?_, rfl, rfl⟩
    intro p hp
    have hmem := List.of_mem_filter hp
    simpa using hmem

/-- Witness for c6_theorem: cleaning up a clone holding a stale mdb-pull
branch removes it and resets HEAD and the working tree to master. -/
theorem c6_witness :
    GitOps.clean_up_references w6Repo "master" = .ok w6Result
    ∧ (∀ p ∈ w6Result.refs, Mapdiffbot2.strContains p.1 "pull-" = false)
    ∧ w6Result.head = "master"
    ∧ w6Result.workTree = GitOps.findRef w6Repo "master" :=
  ⟨by decide, c6_theorem w6Repo "master" w6Result (by decide)⟩

/-- Witness for c10_theorem at a concrete job with one empty-diff file. -/
theorem c10_witness :
    (∀ x ∈ [("icons/foo.dmi",
        JobResult.ok ("MODIFIED", ([] : List String)))], ∃ t, x.2 = .ok (t, []))
    ∧ Icondiffbot2.handle_changed_files
        [("icons/foo.dmi", JobResult.ok ("MODIFIED", ([] : List String)))]
        = .panicked "drained the first chunk out of an empty chunk list" := by
  have h : ∀ x ∈ [("icons/foo.dmi",
      JobResult.ok ("MODIFIED", ([] : List String)))], ∃ t, x.2 = .ok (t, []) := by
    intro x hx
    rw [List.mem_singleton] at hx
    subst hx
    exact ⟨"MODIFIED", rfl⟩
  exact ⟨h, c10_theorem _ h⟩

end BYOND
